import Mathlib

/-!
# srt32/daily: headline filter, prompt builder, crawler and image request

A shallow embedding of `main.go`.  Go strings are byte sequences, so a string is
a list of byte values; `len` is `List.length` and `s[:n]` is `List.take n`.
The Go standard-library functions the program calls (`strings.ToLower`,
`strings.Contains`, `strings.Join`) are embedded from their library definitions.
-/

namespace Daily

/-! ## Go strings and the `unicode/utf8` package -/

/-- A Go string: an immutable sequence of bytes. -/
abbrev GoString := List Nat

/-- Go's `utf8.RuneError`, U+FFFD. -/
def RuneError : Nat := 0xFFFD

/-- Go's `utf8.AppendRune` / `Builder.WriteRune`: the UTF-8 encoding of a rune,
with surrogates and out-of-range values written as `RuneError`. -/
def encodeRune (r : Nat) : GoString :=
  if r ≤ 0x7F then [r]
  else if r ≤ 0x7FF then [0xC0 + r / 64, 0x80 + r % 64]
  else if 0x10FFFF < r ∨ (0xD800 ≤ r ∧ r ≤ 0xDFFF) then [0xEF, 0xBF, 0xBD]
  else if r ≤ 0xFFFF then [0xE0 + r / 4096, 0x80 + (r / 64) % 64, 0x80 + r % 64]
  else [0xF0 + r / 262144, 0x80 + (r / 4096) % 64, 0x80 + (r / 64) % 64, 0x80 + r % 64]

/-- A string literal of the Go source, as the bytes of its UTF-8 encoding. -/
def goStr (s : String) : GoString := s.toList.flatMap (fun c => encodeRune c.toNat)

/-- Go's `first` and `acceptRanges` tables of `unicode/utf8` for a non-ASCII lead
byte: the size of the sequence and the accepted range of its second byte, or
`none` for an invalid lead byte. -/
def leadInfo (b : Nat) : Option (Nat × Nat × Nat) :=
  if 0xC2 ≤ b ∧ b ≤ 0xDF then some (2, 0x80, 0xBF)
  else if b = 0xE0 then some (3, 0xA0, 0xBF)
  else if 0xE1 ≤ b ∧ b ≤ 0xEC then some (3, 0x80, 0xBF)
  else if b = 0xED then some (3, 0x80, 0x9F)
  else if 0xEE ≤ b ∧ b ≤ 0xEF then some (3, 0x80, 0xBF)
  else if b = 0xF0 then some (4, 0x90, 0xBF)
  else if 0xF1 ≤ b ∧ b ≤ 0xF3 then some (4, 0x80, 0xBF)
  else if b = 0xF4 then some (4, 0x80, 0x8F)
  else none

/-- Go's `utf8.DecodeRuneInString`: the first rune of the string and its width in
bytes; an invalid or short sequence decodes to `(RuneError, 1)`. -/
def decodeRuneInString : GoString → Nat × Nat
  | [] => (RuneError, 0)
  | s0 :: t =>
    if s0 < 0x80 then (s0, 1)
    else
      match leadInfo s0 with
      | none => (RuneError, 1)
      | some (sz, lo, hi) =>
        match t with
        | [] => (RuneError, 1)
        | s1 :: t1 =>
          if s1 < lo ∨ hi < s1 then (RuneError, 1)
          else if sz ≤ 2 then ((s0 % 32) * 64 + s1 % 64, 2)
          else
            match t1 with
            | [] => (RuneError, 1)
            | s2 :: t2 =>
              if s2 < 0x80 ∨ 0xBF < s2 then (RuneError, 1)
              else if sz ≤ 3 then ((s0 % 16) * 4096 + (s1 % 64) * 64 + s2 % 64, 3)
              else
                match t2 with
                | [] => (RuneError, 1)
                | s3 :: _ =>
                  if s3 < 0x80 ∨ 0xBF < s3 then (RuneError, 1)
                  else ((s0 % 8) * 262144 + (s1 % 64) * 4096 + (s2 % 64) * 64 + s3 % 64, 4)

/-- The runes of `for _, c := range s`, with `skip` bytes of the current rune
still to pass over. -/
def decodeRunesAux : Nat → GoString → List Nat
  | _, [] => []
  | skip + 1, _ :: t => decodeRunesAux skip t
  | 0, b :: t =>
    (decodeRuneInString (b :: t)).1 :: decodeRunesAux ((decodeRuneInString (b :: t)).2 - 1) t

/-- The runes visited by `for _, c := range s`. -/
def decodeRunes (s : GoString) : List Nat := decodeRunesAux 0 s

/-! ## The `unicode` and `strings` packages -/

/-- Go's `unicode.ToLower`: ASCII is handled inline, every other rune goes
through the case table (`unicode.To(LowerCase, r)`), here the parameter
`caseTable`. -/
def unicodeToLower (caseTable : Nat → Nat) (r : Nat) : Nat :=
  if r ≤ 0x7F then
    if 0x41 ≤ r ∧ r ≤ 0x5A then r + (0x61 - 0x41) else r
  else caseTable r

/-- Go's `strings.Map` for a mapping that never returns a negative rune: every
rune of the string, invalid bytes read as `RuneError`, is replaced by the
encoding of its image. -/
def stringsMap (mapping : Nat → Nat) (s : GoString) : GoString :=
  (decodeRunes s).flatMap (fun c => encodeRune (mapping c))

/-- The byte loop of `strings.ToLower` for an ASCII-only string. -/
def asciiLowerByte (c : Nat) : Nat :=
  if 0x41 ≤ c ∧ c ≤ 0x5A then c + (0x61 - 0x41) else c

/-- Go's `strings.ToLower`. -/
def stringsToLower (caseTable : Nat → Nat) (s : GoString) : GoString :=
  let isASCII := s.all (fun c => decide (c < 0x80))
  let hasUpper := s.any (fun c => decide (0x41 ≤ c ∧ c ≤ 0x5A))
  if isASCII then
    if !hasUpper then s else s.map asciiLowerByte
  else stringsMap (unicodeToLower caseTable) s

/-- Go's `strings.HasPrefix`. -/
def stringsHasPrefix : GoString → GoString → Bool
  | _, [] => true
  | [], _ :: _ => false
  | c :: s, d :: p => c == d && stringsHasPrefix s p

/-- Go's `strings.Contains`: `substr` occurs at some offset of `s`. -/
def stringsContains : GoString → GoString → Bool
  | [], substr => stringsHasPrefix [] substr
  | c :: s, substr => stringsHasPrefix (c :: s) substr || stringsContains s substr

/-- Go's `strings.Join`. -/
def stringsJoin : List GoString → GoString → GoString
  | [], _ => []
  | [a], _ => a
  | a :: b :: rest, sep => a ++ sep ++ stringsJoin (b :: rest) sep

/-! ## `filterHeadlines` -/

/-- The package-level `blockedWords`. -/
def blockedWords : List GoString :=
  [goStr "gunshot", goStr "shooting", goStr "shot", goStr "killed", goStr "murder",
   goStr "bombs", goStr "deadly"]

/-- The inner loop of `filterHeadlines`: the first blocked word the lowercased
headline contains, at which the loop breaks. -/
def firstBlockedWord (headlineLower : GoString) : List GoString → Option GoString
  | [] => none
  | word :: rest =>
    if stringsContains headlineLower word then some word
    else firstBlockedWord headlineLower rest

/-- The line `filterHeadlines` prints for an excluded headline. -/
def filterMessage (word headline : GoString) : GoString :=
  goStr "Filtering out headline containing '" ++ word ++ goStr "': " ++ headline ++ goStr "\n"

/-- One iteration of the outer loop of `filterHeadlines`, on the pair of the
`filtered` slice and the lines printed so far. -/
def filterHeadlinesStep (caseTable : Nat → Nat) (acc : List GoString × List GoString)
    (headline : GoString) : List GoString × List GoString :=
  match firstBlockedWord (stringsToLower caseTable headline) blockedWords with
  | some word => (acc.1, acc.2 ++ [filterMessage word headline])
  | none => (acc.1 ++ [headline], acc.2)

/-- The function `filterHeadlines` with its output: the filtered slice and the
printed lines. -/
def filterHeadlinesOut (caseTable : Nat → Nat) (headlines : List GoString) :
    List GoString × List GoString :=
  headlines.foldl (filterHeadlinesStep caseTable) ([], [])

/-- The function `filterHeadlines`: the slice it returns. -/
def filterHeadlines (caseTable : Nat → Nat) (headlines : List GoString) : List GoString :=
  (filterHeadlinesOut caseTable headlines).1

/-! ## The prompt built by `main` -/

/-- The instruction phrase `main` puts in front of the joined headlines. -/
def instruction : GoString :=
  goStr "Create an artistic interpretation of today's news combining these headlines: "

/-- The untruncated `combinedPrompt` of `main`: the instruction phrase followed by
`strings.Join(headlines, ". ")`. -/
def naivePrompt (headlines : List GoString) : GoString :=
  instruction ++ stringsJoin headlines (goStr ". ")

/-- The `combinedPrompt` that `main` passes to `generateImage`, after the
`len(combinedPrompt) > 1000` truncation. -/
def combinedPrompt (headlines : List GoString) : GoString :=
  if (naivePrompt headlines).length > 1000 then
    (naivePrompt headlines).take 997 ++ goStr "..."
  else naivePrompt headlines

/-! ## The document tree of `golang.org/x/net/html` and the crawler -/

/-- The `html.NodeType` constants. -/
inductive NodeType where
  | ErrorNode | TextNode | DocumentNode | ElementNode | CommentNode | DoctypeNode | RawNode
  deriving DecidableEq, Repr

/-- An `html.Attribute`. -/
structure Attribute where
  Namespace : GoString
  Key : GoString
  Val : GoString
  deriving DecidableEq, Repr

/-- An `html.Node`: its type, data, attributes and, for the `FirstChild` /
`NextSibling` chain, the list of its children in document order. -/
inductive Node where
  | mk (nodeType : NodeType) (Data : GoString) (Attr : List Attribute) (children : List Node)

/-- The field `node.Type`. -/
def Node.nodeType : Node → NodeType
  | .mk t _ _ _ => t

/-- The field `node.Data`. -/
def Node.Data : Node → GoString
  | .mk _ d _ _ => d

/-- The field `node.Attr`. -/
def Node.Attr : Node → List Attribute
  | .mk _ _ a _ => a

/-- The children of a node, from `node.FirstChild` along `NextSibling`. -/
def Node.children : Node → List Node
  | .mk _ _ _ cs => cs

/-- The attribute loop of `crawler`: some attribute has key `class` and value
exactly `topic-title`. -/
def hasTopicTitle : List Attribute → Bool
  | [] => false
  | attr :: rest =>
    if attr.Key = goStr "class" ∧ attr.Val = goStr "topic-title" then true
    else hasTopicTitle rest

mutual
/-- The closure `crawler` of `fetchNPRHeadlines`, threading the captured
`headlines` slice. -/
def crawler : Node → List GoString → List GoString
  | .mk nodeType data attr children, headlines =>
    if nodeType = NodeType.ElementNode ∧ data = goStr "a" ∧ hasTopicTitle attr = true then
      match children with
      | [] => headlines
      | firstChild :: _ => headlines ++ [firstChild.Data]
    else crawlerChildren children headlines
/-- The loop `for c := node.FirstChild; c != nil; c = c.NextSibling` of `crawler`. -/
def crawlerChildren : List Node → List GoString → List GoString
  | [], headlines => headlines
  | c :: rest, headlines => crawlerChildren rest (crawler c headlines)
end

mutual
/-- The nodes on which `crawler` is called, in the order of the calls: the node
itself and, unless the function returns at a matched anchor, the calls of the
loop over its children. -/
def crawlerVisits : Node → List Node
  | .mk nodeType data attr children =>
    .mk nodeType data attr children ::
      (if nodeType = NodeType.ElementNode ∧ data = goStr "a" ∧ hasTopicTitle attr = true then []
       else crawlerVisitsChildren children)
/-- The calls made by the loop of `crawler` over the children of a node. -/
def crawlerVisitsChildren : List Node → List Node
  | [] => []
  | c :: rest => crawlerVisits c ++ crawlerVisitsChildren rest
end

/-- The anchor the specification looks for: an element of tag `a` one of whose
attributes is `class` with value exactly `topic-title`. -/
def isTopicAnchor (n : Node) : Bool :=
  decide (n.nodeType = NodeType.ElementNode) && decide (n.Data = goStr "a") &&
    n.Attr.any (fun attr => decide (attr.Key = goStr "class") &&
      decide (attr.Val = goStr "topic-title"))

mutual
/-- The nodes of a tree in document order (pre-order: a node, then its children
from first to last, each with its subtree), each paired with its proper
ancestors from the root down; `ancestors` are those of the root given. -/
def documentOrder : List Node → Node → List (List Node × Node)
  | ancestors, .mk nodeType data attr children =>
    (ancestors, .mk nodeType data attr children) ::
      documentOrderChildren (ancestors ++ [.mk nodeType data attr children]) children
/-- The document order of a list of siblings. -/
def documentOrderChildren : List Node → List Node → List (List Node × Node)
  | _, [] => []
  | ancestors, c :: rest => documentOrder ancestors c ++ documentOrderChildren ancestors rest
end

/-- A node of the document order that is nested inside no topic anchor. -/
def notInsideAnchor (x : List Node × Node) : Bool :=
  x.1.all (fun a => !isTopicAnchor a)

/-- A topic anchor of the document order that is nested inside no other topic
anchor. -/
def isOuterAnchor (x : List Node × Node) : Bool :=
  isTopicAnchor x.2 && notInsideAnchor x

/-- The text the specification extracts from an anchor: the data of its first
child node, if it has one. -/
def firstChildData (n : Node) : Option GoString :=
  n.children.head?.map Node.Data

/-! ## The outside world and the effectful functions -/

/-- The struct `ImageGenerationRequest`. -/
structure ImageGenerationRequest where
  Prompt : GoString
  N : Int
  Size : GoString
  deriving DecidableEq, Repr

/-- An element of `ImageGenerationResponse.Data`. -/
structure ImageData where
  URL : GoString
  deriving DecidableEq, Repr

/-- The struct `ImageGenerationResponse`. -/
structure ImageGenerationResponse where
  Created : Int
  Data : List ImageData
  deriving DecidableEq, Repr

/-- An `http.Response`, as far as the program looks at it: reading its body to
the end gives an error or the bytes. -/
structure HttpResponse where
  body : Except GoString GoString

/-- An `http.Request` as `generateImage` builds it. -/
structure HttpRequest where
  method : GoString
  url : GoString
  body : GoString
  header : List (GoString × GoString)
  deriving DecidableEq, Repr

/-- What the program does to the outside world, in the order it does it. -/
inductive Event where
  | print (text : GoString)
  | httpGet (url : GoString)
  | mkdirAll (path : GoString)
  | callGenerateImage (prompt : GoString)
  | newRequest (req : HttpRequest)
  | clientDo (req : HttpRequest)
  | callDownloadImage (url filepath : GoString)
  | osCreate (path : GoString)
  | ioCopy (path : GoString)
  deriving DecidableEq, Repr

/-- The answers of the outside world: the case table of package `unicode`, the
network, the environment, the file system, and the library functions
`html.Parse`, `json.Marshal` and `json.Unmarshal`.  An error is its message. -/
structure World where
  caseTable : Nat → Nat
  httpGet : GoString → Except GoString HttpResponse
  htmlParse : GoString → Except GoString Node
  getenv : GoString → GoString
  mkdirAll : GoString → Option GoString
  jsonMarshal : ImageGenerationRequest → GoString
  clientDo : HttpRequest → Except GoString HttpResponse
  jsonUnmarshal : GoString → Except GoString ImageGenerationResponse
  osCreate : GoString → Option GoString
  ioCopy : HttpResponse → GoString → Option GoString

/-- The function `fetchNPRHeadlines`: its events and its result. -/
def fetchNPRHeadlines (w : World) : List Event × Except GoString (List GoString) :=
  let url := goStr "https://text.npr.org"
  match w.httpGet url with
  | .error err => ([Event.httpGet url], .error err)
  | .ok resp =>
    match resp.body with
    | .error err => ([Event.httpGet url], .error err)
    | .ok bytes =>
      match w.htmlParse bytes with
      | .error err => ([Event.httpGet url], .error err)
      | .ok doc => ([Event.httpGet url], .ok (crawler doc []))

/-- The request `generateImage` builds for a prompt and an API key. -/
def imageRequest (w : World) (prompt apiKey : GoString) : HttpRequest :=
  { method := goStr "POST"
    url := goStr "https://api.openai.com/v1/images/generations"
    body := w.jsonMarshal { Prompt := prompt, N := 1, Size := goStr "1024x1024" }
    header := [(goStr "Content-Type", goStr "application/json"),
               (goStr "Authorization", goStr "Bearer " ++ apiKey)] }

/-- The function `generateImage`: its events and its result.  The error returns
of `json.Marshal` (a struct of two strings and an int) and of `http.NewRequest`
(a constant method and URL) cannot be taken and have no branch here. -/
def generateImage (w : World) (prompt : GoString) : List Event × Except GoString GoString :=
  let log := [Event.print (goStr "\nSending prompt to OpenAI:\n" ++ prompt ++ goStr "\n\n")]
  let apiKey := w.getenv (goStr "OPENAI_API_KEY")
  if apiKey = [] then
    (log, .error (goStr "OPENAI_API_KEY environment variable not set"))
  else
    let req := imageRequest w prompt apiKey
    let sent := log ++ [Event.newRequest req, Event.clientDo req]
    match w.clientDo req with
    | .error err => (sent, .error err)
    | .ok resp =>
      match resp.body with
      | .error err => (sent, .error (goStr "failed to read response body: " ++ err))
      | .ok bodyBytes =>
        match w.jsonUnmarshal bodyBytes with
        | .error err =>
          (sent ++ [Event.print (goStr "API Response: " ++ bodyBytes ++ goStr "\n")],
            .error (goStr "failed to decode response: " ++ err))
        | .ok result =>
          match result.Data with
          | [] =>
            (sent ++ [Event.print (goStr "API Response: " ++ bodyBytes ++ goStr "\n")],
              .error (goStr "no image URL in response"))
          | first :: _ => (sent, .ok first.URL)

/-- The function `downloadImage`: its events and the error it returns, if any. -/
def downloadImage (w : World) (url filepath : GoString) : List Event × Option GoString :=
  match w.httpGet url with
  | .error err => ([Event.httpGet url], some err)
  | .ok resp =>
    match w.osCreate filepath with
    | some err => ([Event.httpGet url, Event.osCreate filepath], some err)
    | none =>
      ([Event.httpGet url, Event.osCreate filepath, Event.ioCopy filepath],
        w.ioCopy resp filepath)

/-- The function `main`: the events of one run. -/
def main (w : World) : List Event :=
  match fetchNPRHeadlines w with
  | (fetched, .error err) =>
    fetched ++ [Event.print (goStr "Error fetching headlines: " ++ err ++ goStr "\n")]
  | (fetched, .ok headlines) =>
    let out := filterHeadlinesOut w.caseTable headlines
    let headlines := out.1
    let ev := fetched ++ out.2.map Event.print
    if headlines.length = 0 then
      ev ++ [Event.print (goStr "No headlines remaining after filtering\n")]
    else
      let dir := goStr "generated_images"
      match w.mkdirAll dir with
      | some err =>
        ev ++ [Event.mkdirAll dir,
          Event.print (goStr "Error creating output directory: " ++ err ++ goStr "\n")]
      | none =>
        let prompt := combinedPrompt headlines
        let ev := ev ++ [Event.mkdirAll dir,
          Event.print (goStr "Generating image for combined headlines...\n"),
          Event.callGenerateImage prompt]
        match generateImage w prompt with
        | (gen, .error err) =>
          ev ++ gen ++ [Event.print (goStr "Error generating image: " ++ err ++ goStr "\n")]
        | (gen, .ok imageURL) =>
          let path := goStr "generated_images/combined_news.png"
          let ev := ev ++ gen ++ [Event.callDownloadImage imageURL path]
          match downloadImage w imageURL path with
          | (dl, some err) =>
            ev ++ dl ++ [Event.print (goStr "Error downloading image: " ++ err ++ goStr "\n")]
          | (dl, none) =>
            ev ++ dl ++ [Event.print
              (goStr "Image generated successfully at: generated_images/combined_news.png\n")]

/-- The test `filterHeadlines` applies to one headline: no blocked word is
contained in its lowercased form. -/
def passes (caseTable : Nat → Nat) (headline : GoString) : Bool :=
  (firstBlockedWord (stringsToLower caseTable headline) blockedWords).isNone

/-! ## Concrete inputs for the scenarios -/

/-- A headline anchor as the page has it: an `a` element of class `topic-title`
whose only child is a text node. -/
def headlineAnchor (text : GoString) : Node :=
  .mk .ElementNode (goStr "a") [⟨[], goStr "class", goStr "topic-title"⟩]
    [.mk .TextNode text [] []]

/-- A parsed page whose body holds one headline anchor for each text. -/
def headlinePage (texts : List GoString) : Node :=
  .mk .DocumentNode [] []
    [.mk .ElementNode (goStr "html") []
      [.mk .ElementNode (goStr "head") [] [],
       .mk .ElementNode (goStr "body") [] (texts.map headlineAnchor)]]

/-- A parsed page whose only anchor is a topic anchor without any child, as
`<a class="topic-title"></a>` parses. -/
def emptyAnchorPage : Node :=
  .mk .DocumentNode [] []
    [.mk .ElementNode (goStr "html") []
      [.mk .ElementNode (goStr "head") [] [],
       .mk .ElementNode (goStr "body") []
        [.mk .ElementNode (goStr "a") [⟨[], goStr "class", goStr "topic-title"⟩] []]]]

/-- A world in which the page parses to `doc`, the environment variable holds
`apiKey`, the image service answers with `reply` and the reply decodes to
`decoded`; no network or file operation fails. -/
def scenarioWorld (doc : Node) (apiKey reply : GoString)
    (decoded : Except GoString ImageGenerationResponse) : World :=
  { caseTable := fun r => r
    httpGet := fun _ => .ok ⟨.ok []⟩
    htmlParse := fun _ => .ok doc
    getenv := fun _ => apiKey
    mkdirAll := fun _ => none
    jsonMarshal := fun r => r.Prompt
    clientDo := fun _ => .ok ⟨.ok reply⟩
    jsonUnmarshal := fun _ => decoded
    osCreate := fun _ => none
    ioCopy := fun _ _ => none }

/-! ## Library facts: `strings.HasPrefix`, `strings.Contains` -/

theorem stringsHasPrefix_iff (s p : GoString) : stringsHasPrefix s p = true ↔ p <+: s := by
  induction s generalizing p with
  | nil => cases p <;> simp [stringsHasPrefix]
  | cons c s ih =>
    cases p with
    | nil => simp [stringsHasPrefix]
    | cons d p =>
      simp only [stringsHasPrefix, Bool.and_eq_true, beq_iff_eq, ih, List.cons_prefix_cons]
      constructor
      · rintro ⟨h1, h2⟩; exact ⟨h1.symm, h2⟩
      · rintro ⟨h1, h2⟩; exact ⟨h1.symm, h2⟩

theorem stringsContains_iff (s substr : GoString) :
    stringsContains s substr = true ↔ substr <:+: s := by
  induction s with
  | nil =>
    simp only [stringsContains, stringsHasPrefix_iff]
    constructor
    · intro h; exact h.isInfix
    · intro h; rw [List.eq_nil_of_infix_nil h]
  | cons c s ih =>
    simp only [stringsContains, Bool.or_eq_true, stringsHasPrefix_iff, ih, List.infix_cons_iff]

theorem firstBlockedWord_eq_none_iff (hl : GoString) (ws : List GoString) :
    firstBlockedWord hl ws = none ↔ ∀ w ∈ ws, ¬ w <:+: hl := by
  induction ws with
  | nil => simp [firstBlockedWord]
  | cons w ws ih =>
    simp only [firstBlockedWord, List.mem_cons, forall_eq_or_imp]
    by_cases h : stringsContains hl w = true
    · simp [h, (stringsContains_iff hl w).1 h]
    · have h2 : ¬ w <:+: hl := fun hw => h ((stringsContains_iff hl w).2 hw)
      simp [h, h2, ih]

theorem passes_iff (caseTable : Nat → Nat) (h : GoString) :
    passes caseTable h = true ↔ ∀ w ∈ blockedWords, ¬ w <:+: stringsToLower caseTable h := by
  rw [passes, Option.isNone_iff_eq_none, firstBlockedWord_eq_none_iff]

theorem filterHeadlinesOut_fst (caseTable : Nat → Nat) (H : List GoString)
    (acc : List GoString × List GoString) :
    (H.foldl (filterHeadlinesStep caseTable) acc).1 = acc.1 ++ H.filter (passes caseTable) := by
  induction H generalizing acc with
  | nil => simp
  | cons h H ih =>
    rw [List.foldl_cons, ih, List.filter_cons]
    unfold filterHeadlinesStep passes
    cases hfb : firstBlockedWord (stringsToLower caseTable h) blockedWords <;> simp

theorem filterHeadlines_eq_filter (caseTable : Nat → Nat) (H : List GoString) :
    filterHeadlines caseTable H = H.filter (passes caseTable) := by
  simp [filterHeadlines, filterHeadlinesOut, filterHeadlinesOut_fst]

/-! ## Library facts: UTF-8 decoding and `strings.ToLower` -/

theorem leadInfo_range {b sz lo hi : Nat} (h : leadInfo b = some (sz, lo, hi)) :
    0x80 ≤ lo ∧ hi ≤ 0xBF ∧ 2 ≤ sz ∧ sz ≤ 4 ∧ 0xC2 ≤ b := by
  unfold leadInfo at h
  split_ifs at h <;> simp only [Option.some.injEq, Prod.mk.injEq] at h <;>
    (obtain ⟨rfl, rfl, rfl⟩ := h; omega)

theorem decodeRuneInString_ascii {a : Nat} (ha : a < 0x80) (rest : GoString) :
    decodeRuneInString (a :: rest) = (a, 1) := by
  simp [decodeRuneInString, ha]

/-- A rune that starts in `pre` does not reach an ASCII byte that follows `pre`. -/
theorem decodeRuneInString_append_ascii (b : Nat) (pre : GoString) {a : Nat} (ha : a < 0x80)
    (rest : GoString) :
    decodeRuneInString (b :: (pre ++ a :: rest)) = decodeRuneInString (b :: pre) ∧
      (decodeRuneInString (b :: pre)).2 - 1 ≤ pre.length := by
  unfold decodeRuneInString
  by_cases hb : b < 0x80
  · simp [hb]
  · simp only [hb, if_false]
    cases hl : leadInfo b with
    | none => simp
    | some info =>
      obtain ⟨sz, lo, hi⟩ := info
      have hr := leadInfo_range hl
      rcases pre with _ | ⟨s1, _ | ⟨s2, _ | ⟨s3, t3⟩⟩⟩
      · have : a < lo := by omega
        simp [this]
      · simp only [List.cons_append, List.nil_append, List.length_cons, List.length_nil]
        split_ifs <;> simp_all
      · simp only [List.cons_append, List.nil_append, List.length_cons, List.length_nil]
        split_ifs <;> simp_all
      · simp only [List.cons_append, List.length_cons]
        split_ifs <;> simp

theorem decodeRunesAux_append_ascii (pre : GoString) {a : Nat} (ha : a < 0x80)
    (rest : GoString) (k : Nat) (hk : k ≤ pre.length) :
    decodeRunesAux k (pre ++ a :: rest) = decodeRunesAux k pre ++ a :: decodeRunesAux 0 rest := by
  induction pre generalizing k with
  | nil =>
    have : k = 0 := by simpa using hk
    subst this
    simp [decodeRunesAux, decodeRuneInString_ascii ha]
  | cons b pre ih =>
    cases k with
    | zero =>
      have h := decodeRuneInString_append_ascii b pre ha rest
      rw [List.cons_append, decodeRunesAux, decodeRunesAux, h.1, ih _ h.2, List.cons_append]
    | succ k =>
      rw [List.cons_append, decodeRunesAux, decodeRunesAux]
      exact ih k (by simpa using hk)

theorem decodeRunes_append_ascii (pre : GoString) {a : Nat} (ha : a < 0x80) (rest : GoString) :
    decodeRunes (pre ++ a :: rest) = decodeRunes pre ++ a :: decodeRunes rest :=
  decodeRunesAux_append_ascii pre ha rest 0 (Nat.zero_le _)

theorem encodeRune_unicodeToLower_ascii (caseTable : Nat → Nat) {a : Nat} (ha : a < 0x80) :
    encodeRune (unicodeToLower caseTable a) = [asciiLowerByte a] := by
  unfold unicodeToLower asciiLowerByte encodeRune
  split_ifs <;> first | rfl | omega

theorem stringsMap_append_ascii (caseTable : Nat → Nat) (pre : GoString) {a : Nat}
    (ha : a < 0x80) (rest : GoString) :
    stringsMap (unicodeToLower caseTable) (pre ++ a :: rest) =
      stringsMap (unicodeToLower caseTable) pre ++
        asciiLowerByte a :: stringsMap (unicodeToLower caseTable) rest := by
  simp [stringsMap, decodeRunes_append_ascii pre ha rest, List.flatMap_append,
    encodeRune_unicodeToLower_ascii caseTable ha]

theorem stringsMap_nil (f : Nat → Nat) : stringsMap f [] = [] := rfl

theorem stringsMap_ascii (caseTable : Nat → Nat) (s : GoString) (hs : ∀ c ∈ s, c < 0x80) :
    stringsMap (unicodeToLower caseTable) s = s.map asciiLowerByte := by
  induction s with
  | nil => rfl
  | cons a s ih =>
    have ha : a < 0x80 := hs a (List.mem_cons_self _ _)
    have h := stringsMap_append_ascii caseTable [] ha s
    rw [List.nil_append, stringsMap_nil, List.nil_append] at h
    rw [h, ih (fun c hc => hs c (List.mem_cons_of_mem _ hc)), List.map_cons]

/-- Go's `strings.ToLower` takes a shortcut on ASCII-only strings; the result is
that of `strings.Map(unicode.ToLower, s)` on every string. -/
theorem stringsToLower_eq_stringsMap (caseTable : Nat → Nat) (s : GoString) :
    stringsToLower caseTable s = stringsMap (unicodeToLower caseTable) s := by
  unfold stringsToLower
  dsimp only
  split
  · rename_i hall
    have hs : ∀ c ∈ s, c < 0x80 := by simpa using hall
    rw [stringsMap_ascii caseTable s hs]
    split
    · rename_i hup
      have hno : ∀ c ∈ s, ¬ (0x41 ≤ c ∧ c ≤ 0x5A) := by simpa using hup
      symm
      calc s.map asciiLowerByte = s.map id := by
            apply List.map_congr_left
            intro c hc
            simp [asciiLowerByte, hno c hc]
        _ = s := List.map_id s
    · rfl
  · rfl

/-- Lowercasing splits at an ASCII byte. -/
theorem stringsToLower_append_ascii (caseTable : Nat → Nat) (pre : GoString) {a : Nat}
    (ha : a < 0x80) (rest : GoString) :
    stringsToLower caseTable (pre ++ a :: rest) =
      stringsToLower caseTable pre ++ asciiLowerByte a :: stringsToLower caseTable rest := by
  simp only [stringsToLower_eq_stringsMap, stringsMap_append_ascii caseTable pre ha rest]

theorem asciiLowerByte_lt {c : Nat} (h : asciiLowerByte c < 0x80) : c < 0x80 := by
  unfold asciiLowerByte at h
  split_ifs at h <;> omega

/-- An ASCII word inside a headline shows up lowercased in the lowercased
headline. -/
theorem map_asciiLowerByte_infix_stringsToLower (caseTable : Nat → Nat) (u h : GoString)
    (hu : ∀ c ∈ u, c < 0x80) (hinf : u <:+: h) :
    u.map asciiLowerByte <:+: stringsToLower caseTable h := by
  obtain ⟨pre, post, rfl⟩ := hinf
  induction u generalizing pre with
  | nil => exact List.nil_infix
  | cons a u ih =>
    have ha : a < 0x80 := hu a (List.mem_cons_self _ _)
    have h1 : pre ++ a :: u ++ post = pre ++ a :: (u ++ post) := by simp
    rw [h1, stringsToLower_append_ascii caseTable pre ha]
    have hu2 : stringsToLower caseTable (u ++ post) =
        u.map asciiLowerByte ++ stringsToLower caseTable post := by
      clear ih h1
      induction u with
      | nil => simp
      | cons b u ihu =>
        have hb : b < 0x80 := hu b (List.mem_cons_of_mem _ (List.mem_cons_self _ _))
        have h2 := stringsToLower_append_ascii caseTable [] hb (u ++ post)
        have hnil : stringsToLower caseTable [] = [] := rfl
        rw [List.nil_append, hnil, List.nil_append] at h2
        rw [List.cons_append, h2, List.map_cons, List.cons_append, ihu]
        · intro c hc
          rcases List.mem_cons.1 hc with rfl | hc
          · exact ha
          · exact hu c (List.mem_cons_of_mem _ (List.mem_cons_of_mem _ hc))
    rw [hu2, List.map_cons]
    exact ⟨stringsToLower caseTable pre, stringsToLower caseTable post, by simp⟩

/-! ## Library facts: lowercasing a truncated string -/

theorem infix_of_infix_append_cons {w X Y : GoString} {c : Nat} (hc : c ∉ w)
    (h : w <:+: X ++ c :: Y) : w <:+: X ∨ w <:+: Y := by
  obtain ⟨s, t, hst⟩ := h
  rcases List.append_eq_append_iff.1 hst with ⟨a, hX, _⟩ | ⟨q, hsw, hY⟩
  · exact Or.inl ⟨s, a, hX.symm⟩
  · rcases q with _ | ⟨d, q⟩
    · rw [List.append_nil] at hsw
      exact Or.inl ⟨s, [], by rw [List.append_nil]; exact hsw⟩
    · rw [List.cons_append, List.cons.injEq] at hY
      obtain ⟨rfl, hY⟩ := hY
      rcases List.append_eq_append_iff.1 hsw with ⟨a, _, hw⟩ | ⟨r, _, hr⟩
      · exact absurd (hw ▸ List.mem_append_right a (List.mem_cons_self _ _)) hc
      · rcases r with _ | ⟨e, r⟩
        · rw [List.nil_append] at hr
          exact absurd (hr ▸ List.mem_cons_self _ _) hc
        · rw [List.cons_append, List.cons.injEq] at hr
          obtain ⟨_, hr⟩ := hr
          exact Or.inr ⟨r, t, by rw [hY, hr]⟩

theorem infix_of_infix_append_disjoint {w : GoString} (B : GoString) (hB : ∀ c ∈ w, c ∉ B)
    (A : GoString) (h : w <:+: A ++ B) : w <:+: A := by
  induction B generalizing A with
  | nil => simpa using h
  | cons b B ih =>
    have hb : b ∉ w := fun hbw => hB b hbw (List.mem_cons_self _ _)
    rcases infix_of_infix_append_cons hb h with h1 | h1
    · exact h1
    · have h2 := ih (fun c hc hcB => hB c hc (List.mem_cons_of_mem _ hcB)) [] (by simpa using h1)
      rw [List.infix_nil] at h2
      rw [h2]
      exact List.nil_infix

/-- Cutting the bytes after a lead byte either leaves the decoded rune as it
was, or cuts a valid sequence short: then the rune is `RuneError` of width 1 and
the bytes that remain are continuation bytes. -/
theorem decodeRuneInString_take (b : Nat) (t : GoString) (n : Nat) :
    decodeRuneInString (b :: t.take n) = decodeRuneInString (b :: t) ∨
      (decodeRuneInString (b :: t.take n) = (RuneError, 1) ∧
        ∀ c ∈ t.take n, 0x80 ≤ c ∧ c ≤ 0xBF) := by
  unfold decodeRuneInString
  by_cases hb : b < 0x80
  · simp [hb]
  · simp only [hb, if_false]
    cases hl : leadInfo b with
    | none => simp
    | some info =>
      obtain ⟨sz, lo, hi⟩ := info
      have hr := leadInfo_range hl
      rcases t with _ | ⟨s1, _ | ⟨s2, _ | ⟨s3, t3⟩⟩⟩ <;>
        rcases n with _ | _ | _ | n <;>
        simp only [List.take, List.mem_cons, List.not_mem_nil, or_false, forall_eq_or_imp,
          forall_eq, false_implies, implies_true, and_true, true_and, or_true, true_or] <;>
        split_ifs <;>
        first
          | (left; rfl)
          | (right; simp; omega)

theorem leadInfo_continuation {c : Nat} (h : 0x80 ≤ c ∧ c ≤ 0xBF) : leadInfo c = none := by
  unfold leadInfo
  split_ifs <;> first | rfl | omega

theorem decodeRunesAux_continuation (l : GoString) (hl : ∀ c ∈ l, 0x80 ≤ c ∧ c ≤ 0xBF) :
    decodeRunesAux 0 l = List.replicate l.length RuneError := by
  induction l with
  | nil => rfl
  | cons c l ih =>
    have hc := hl c (List.mem_cons_self _ _)
    have hd : decodeRuneInString (c :: l) = (RuneError, 1) := by
      have hnot : ¬ c < 0x80 := by omega
      simp only [decodeRuneInString, hnot, if_false, leadInfo_continuation hc]
    rw [decodeRunesAux, hd, List.length_cons, List.replicate_succ]
    exact congrArg _ (ih (fun d hd => hl d (List.mem_cons_of_mem _ hd)))

/-- The runes of a truncated string are runes of the whole string followed by
`RuneError` for each byte of a rune that was cut. -/
theorem decodeRunesAux_take (s : GoString) (k n : Nat) :
    ∃ j m, decodeRunesAux k (s.take n) =
      (decodeRunesAux k s).take j ++ List.replicate m RuneError := by
  induction s generalizing k n with
  | nil => exact ⟨0, 0, by simp [decodeRunesAux]⟩
  | cons b t ih =>
    cases n with
    | zero => exact ⟨0, 0, by simp [decodeRunesAux]⟩
    | succ n =>
      cases k with
      | succ k =>
        obtain ⟨j, m, h⟩ := ih k n
        exact ⟨j, m, by rw [List.take_succ_cons, decodeRunesAux, decodeRunesAux, h]⟩
      | zero =>
        rw [List.take_succ_cons, decodeRunesAux, decodeRunesAux]
        rcases decodeRuneInString_take b t n with h | ⟨h, hcont⟩
        · obtain ⟨j, m, hj⟩ := ih ((decodeRuneInString (b :: t)).2 - 1) n
          exact ⟨j + 1, m, by rw [h, hj, List.take_succ_cons, List.cons_append]⟩
        · refine ⟨0, (t.take n).length + 1, ?_⟩
          have h0 : (RuneError, 1).2 - 1 = 0 := rfl
          rw [h, h0, decodeRunesAux_continuation _ hcont, List.take_zero, List.nil_append,
            List.replicate_succ]

theorem encodeRune_RuneError : encodeRune RuneError = [0xEF, 0xBF, 0xBD] := by decide

/-- An ASCII word found in the lowercased form of a truncated string is found in
the lowercased form of the whole string, the case table leaving `RuneError`
alone. -/
theorem infix_stringsToLower_of_take (caseTable : Nat → Nat)
    (hct : caseTable RuneError = RuneError) (w : GoString) (hw : ∀ c ∈ w, c < 0x80)
    (s : GoString) (n : Nat) (h : w <:+: stringsToLower caseTable (s.take n)) :
    w <:+: stringsToLower caseTable s := by
  rw [stringsToLower_eq_stringsMap] at h ⊢
  unfold stringsMap decodeRunes at h ⊢
  obtain ⟨j, m, hjm⟩ := decodeRunesAux_take s 0 n
  rw [hjm, List.flatMap_append] at h
  have hre : encodeRune (unicodeToLower caseTable RuneError) = [0xEF, 0xBF, 0xBD] := by
    have : unicodeToLower caseTable RuneError = RuneError := by
      unfold unicodeToLower
      rw [if_neg (by decide), hct]
    rw [this, encodeRune_RuneError]
  have hB : ∀ c ∈ w, c ∉ (List.replicate m RuneError).flatMap
      (fun c => encodeRune (unicodeToLower caseTable c)) := by
    intro c hc hmem
    rw [List.mem_flatMap] at hmem
    obtain ⟨r, hr, hcr⟩ := hmem
    rw [List.eq_of_mem_replicate hr, hre] at hcr
    have := hw c hc
    simp at hcr
    omega
  have h1 := infix_of_infix_append_disjoint _ hB _ h
  have h2 : ((decodeRunesAux 0 s).take j).flatMap
      (fun c => encodeRune (unicodeToLower caseTable c)) <+:
      (decodeRunesAux 0 s).flatMap (fun c => encodeRune (unicodeToLower caseTable c)) := by
    refine ⟨((decodeRunesAux 0 s).drop j).flatMap
      (fun c => encodeRune (unicodeToLower caseTable c)), ?_⟩
    rw [← List.flatMap_append, List.take_append_drop]
  exact h1.trans h2.isInfix

theorem blockedWords_ascii : ∀ w ∈ blockedWords, ∀ c ∈ w, c < 0x80 := by decide

/-! ## The lowercased prompt -/

theorem stringsToLower_nil (caseTable : Nat → Nat) : stringsToLower caseTable [] = [] := rfl

theorem stringsToLower_ascii (caseTable : Nat → Nat) (s : GoString) (hs : ∀ c ∈ s, c < 0x80) :
    stringsToLower caseTable s = s.map asciiLowerByte := by
  rw [stringsToLower_eq_stringsMap, stringsMap_ascii caseTable s hs]

theorem stringsToLower_cons_ascii (caseTable : Nat → Nat) {a : Nat} (ha : a < 0x80)
    (rest : GoString) :
    stringsToLower caseTable (a :: rest) = asciiLowerByte a :: stringsToLower caseTable rest := by
  have h := stringsToLower_append_ascii caseTable [] ha rest
  rwa [List.nil_append, stringsToLower_nil, List.nil_append] at h

/-- A word without `.` and space that is in no lowercased headline is not in the
lowercased join of the headlines. -/
theorem not_infix_stringsToLower_join (caseTable : Nat → Nat) (w : GoString) (hne : w ≠ [])
    (hdot : 0x2E ∉ w) (hsp : 0x20 ∉ w) (F : List GoString)
    (hF : ∀ h ∈ F, ¬ w <:+: stringsToLower caseTable h) :
    ¬ w <:+: stringsToLower caseTable (stringsJoin F (goStr ". ")) := by
  induction F with
  | nil =>
    intro h
    rw [stringsJoin, stringsToLower_nil, List.infix_nil] at h
    exact hne h
  | cons a F ih =>
    cases F with
    | nil => exact hF a (List.mem_cons_self _ _)
    | cons b rest =>
      intro h
      have hsep : goStr ". " = [0x2E, 0x20] := by decide
      have hj : stringsJoin (a :: b :: rest) (goStr ". ") =
          a ++ 0x2E :: 0x20 :: stringsJoin (b :: rest) (goStr ". ") := by
        rw [stringsJoin, hsep]; simp
      rw [hj, stringsToLower_append_ascii caseTable a (by decide),
        stringsToLower_cons_ascii caseTable (by decide)] at h
      have h2E : asciiLowerByte 0x2E = 0x2E := by decide
      have h20 : asciiLowerByte 0x20 = 0x20 := by decide
      rw [h2E, h20] at h
      rcases infix_of_infix_append_cons hdot h with h1 | h1
      · exact hF a (List.mem_cons_self _ _) h1
      · have h3 : w <:+: [] ++ 0x20 :: stringsToLower caseTable
            (stringsJoin (b :: rest) (goStr ". ")) := by simpa using h1
        rcases infix_of_infix_append_cons hsp h3 with h4 | h4
        · exact hne (List.infix_nil.1 h4)
        · exact ih (fun x hx => hF x (List.mem_cons_of_mem _ hx)) h4

set_option maxRecDepth 100000 in
theorem blockedWords_shape : ∀ w ∈ blockedWords,
    w ≠ [] ∧ 0x2E ∉ w ∧ 0x20 ∉ w ∧ ¬ w <:+: (instruction.dropLast).map asciiLowerByte := by
  decide

set_option maxRecDepth 100000 in
theorem instruction_eq : instruction = instruction.dropLast ++ [0x20] ∧
    ∀ c ∈ instruction.dropLast, c < 0x80 := by
  decide

/-- No blocked word is in the lowercased untruncated prompt of headlines that
passed the filter. -/
theorem not_infix_stringsToLower_naivePrompt (caseTable : Nat → Nat) (w : GoString)
    (hw : w ∈ blockedWords) (F : List GoString) (hF : ∀ h ∈ F, passes caseTable h = true) :
    ¬ w <:+: stringsToLower caseTable (naivePrompt F) := by
  obtain ⟨hne, hdot, hsp, hinstr⟩ := blockedWords_shape w hw
  intro h
  unfold naivePrompt at h
  rw [instruction_eq.1, List.append_assoc, List.singleton_append,
    stringsToLower_append_ascii caseTable _ (by decide),
    stringsToLower_ascii caseTable _ instruction_eq.2] at h
  have h20 : asciiLowerByte 0x20 = 0x20 := by decide
  rw [h20] at h
  rcases infix_of_infix_append_cons hsp h with h1 | h1
  · exact hinstr h1
  · exact not_infix_stringsToLower_join caseTable w hne hdot hsp F
      (fun x hx => (passes_iff caseTable x).1 (hF x hx) w hw) h1

/-- No blocked word is in the lowercased prompt of headlines that passed the
filter, truncated or not. -/
theorem not_infix_stringsToLower_combinedPrompt (caseTable : Nat → Nat)
    (hct : caseTable RuneError = RuneError) (w : GoString) (hw : w ∈ blockedWords)
    (F : List GoString) (hF : ∀ h ∈ F, passes caseTable h = true) :
    ¬ w <:+: stringsToLower caseTable (combinedPrompt F) := by
  obtain ⟨hne, hdot, _, _⟩ := blockedWords_shape w hw
  have hnaive := not_infix_stringsToLower_naivePrompt caseTable w hw F hF
  unfold combinedPrompt
  split
  · intro h
    have hell : goStr "..." = [0x2E, 0x2E, 0x2E] := by decide
    rw [hell, stringsToLower_append_ascii caseTable _ (by decide),
      stringsToLower_ascii caseTable [0x2E, 0x2E] (by decide)] at h
    have h2E : asciiLowerByte 0x2E = 0x2E := by decide
    rw [h2E] at h
    rcases infix_of_infix_append_cons hdot h with h1 | h1
    · exact hnaive
        (infix_stringsToLower_of_take caseTable hct w (blockedWords_ascii w hw) _ _ h1)
    · rcases w with _ | ⟨c, w⟩
      · exact hne rfl
      · have hc := h1.subset (List.mem_cons_self c w)
        have hc2 : c = 0x2E := by
          simp only [List.map_cons, List.map_nil, h2E, List.mem_cons, List.not_mem_nil,
            or_false, or_self] at hc
          exact hc
        exact hdot (hc2 ▸ List.mem_cons_self c w)
  · exact hnaive

/-! ## The crawler -/

theorem hasTopicTitle_eq_any (attrs : List Attribute) :
    hasTopicTitle attrs = attrs.any (fun attr => decide (attr.Key = goStr "class") &&
      decide (attr.Val = goStr "topic-title")) := by
  induction attrs with
  | nil => rfl
  | cons a attrs ih =>
    rw [hasTopicTitle, List.any_cons, ih]
    by_cases h : a.Key = goStr "class" ∧ a.Val = goStr "topic-title"
    · simp [h]
    · rw [if_neg h]
      rcases not_and_or.1 h with h1 | h1 <;> simp [h1]

theorem isTopicAnchor_mk (t : NodeType) (d : GoString) (a : List Attribute) (cs : List Node) :
    isTopicAnchor (.mk t d a cs) = true ↔
      (t = NodeType.ElementNode ∧ d = goStr "a" ∧ hasTopicTitle a = true) := by
  simp [isTopicAnchor, Node.nodeType, Node.Data, Node.Attr, hasTopicTitle_eq_any, and_assoc]

mutual
theorem crawler_append : ∀ (n : Node) (hs : List GoString), crawler n hs = hs ++ crawler n []
  | .mk t d a cs, hs => by
    simp only [crawler]
    split
    · cases cs <;> simp
    · exact crawlerChildren_append cs hs
theorem crawlerChildren_append : ∀ (cs : List Node) (hs : List GoString),
    crawlerChildren cs hs = hs ++ crawlerChildren cs []
  | [], hs => by simp [crawlerChildren]
  | c :: rest, hs => by
    rw [crawlerChildren, crawlerChildren, crawlerChildren_append rest (crawler c hs),
      crawler_append c hs, crawlerChildren_append rest (crawler c []), List.append_assoc]
end

/-- What a visited node contributes to the headlines. -/
theorem crawler_mk_nil (t : NodeType) (d : GoString) (a : List Attribute) (cs : List Node) :
    crawler (.mk t d a cs) [] =
      if isTopicAnchor (.mk t d a cs) = true then (firstChildData (.mk t d a cs)).toList
      else crawlerChildren cs [] := by
  simp only [crawler, isTopicAnchor_mk]
  split
  · cases cs <;> simp [firstChildData, Node.children]
  · rfl

mutual
theorem crawler_eq_visits : ∀ n : Node,
    crawler n [] = (crawlerVisits n).filterMap
      (fun m => if isTopicAnchor m = true then firstChildData m else none)
  | .mk t d a cs => by
    rw [crawler_mk_nil, crawlerVisits, List.filterMap_cons]
    by_cases h : isTopicAnchor (.mk t d a cs) = true
    · have h2 := (isTopicAnchor_mk t d a cs).1 h
      rw [if_pos h, if_pos h2, if_pos h]
      cases firstChildData (.mk t d a cs) <;> simp
    · have h2 : ¬ (t = NodeType.ElementNode ∧ d = goStr "a" ∧ hasTopicTitle a = true) :=
        fun h3 => h ((isTopicAnchor_mk t d a cs).2 h3)
      rw [if_neg h, if_neg h2, if_neg h]
      exact crawlerChildren_eq_visits cs
theorem crawlerChildren_eq_visits : ∀ cs : List Node,
    crawlerChildren cs [] = (crawlerVisitsChildren cs).filterMap
      (fun m => if isTopicAnchor m = true then firstChildData m else none)
  | [] => by simp [crawlerChildren, crawlerVisitsChildren]
  | c :: rest => by
    rw [crawlerChildren, crawlerChildren_append, crawler_eq_visits c,
      crawlerChildren_eq_visits rest, crawlerVisitsChildren, List.filterMap_append]
end

mutual
theorem documentOrder_inside : ∀ (anc : List Node) (n : Node),
    anc.all (fun a => !isTopicAnchor a) = false →
      (documentOrder anc n).filter notInsideAnchor = []
  | anc, .mk t d a cs, h => by
    have h2 : (anc ++ [Node.mk t d a cs]).all (fun a => !isTopicAnchor a) = false := by
      rw [List.all_append, h, Bool.false_and]
    rw [documentOrder, List.filter_cons, documentOrderChildren_inside _ cs h2]
    simp [notInsideAnchor, h]
theorem documentOrderChildren_inside : ∀ (anc : List Node) (cs : List Node),
    anc.all (fun a => !isTopicAnchor a) = false →
      (documentOrderChildren anc cs).filter notInsideAnchor = []
  | _, [], _ => by simp [documentOrderChildren]
  | anc, c :: rest, h => by
    rw [documentOrderChildren, List.filter_append, documentOrder_inside anc c h,
      documentOrderChildren_inside anc rest h, List.append_nil]
end

mutual
theorem crawlerVisits_eq : ∀ (anc : List Node) (n : Node),
    anc.all (fun a => !isTopicAnchor a) = true →
      crawlerVisits n = ((documentOrder anc n).filter notInsideAnchor).map Prod.snd
  | anc, .mk t d a cs, h => by
    have hkeep : notInsideAnchor (anc, Node.mk t d a cs) = true := h
    rw [crawlerVisits, documentOrder, List.filter_cons, if_pos hkeep, List.map_cons]
    by_cases hm : isTopicAnchor (.mk t d a cs) = true
    · have h2 : (anc ++ [Node.mk t d a cs]).all (fun a => !isTopicAnchor a) = false := by
        rw [List.all_append]; simp [hm]
      rw [if_pos ((isTopicAnchor_mk t d a cs).1 hm), documentOrderChildren_inside _ cs h2]
      rfl
    · have h2 : (anc ++ [Node.mk t d a cs]).all (fun a => !isTopicAnchor a) = true := by
        rw [List.all_append, h]; simp [hm]
      have h3 : ¬ (t = NodeType.ElementNode ∧ d = goStr "a" ∧ hasTopicTitle a = true) :=
        fun h4 => hm ((isTopicAnchor_mk t d a cs).2 h4)
      rw [if_neg h3, crawlerVisitsChildren_eq _ cs h2]
theorem crawlerVisitsChildren_eq : ∀ (anc : List Node) (cs : List Node),
    anc.all (fun a => !isTopicAnchor a) = true →
      crawlerVisitsChildren cs =
        ((documentOrderChildren anc cs).filter notInsideAnchor).map Prod.snd
  | _, [], _ => by simp [crawlerVisitsChildren, documentOrderChildren]
  | anc, c :: rest, h => by
    rw [crawlerVisitsChildren, documentOrderChildren, List.filter_append, List.map_append,
      crawlerVisits_eq anc c h, crawlerVisitsChildren_eq anc rest h]
end

/-- The headlines are the first-child data of the outer topic anchors, in
document order. -/
theorem crawler_eq_outerAnchors (doc : Node) :
    crawler doc [] =
      ((documentOrder [] doc).filter isOuterAnchor).filterMap (fun x => firstChildData x.2) := by
  rw [crawler_eq_visits, crawlerVisits_eq [] doc rfl, List.filterMap_map]
  generalize documentOrder [] doc = l
  induction l with
  | nil => rfl
  | cons x l ih =>
    simp only [List.filter_cons, isOuterAnchor]
    by_cases h1 : notInsideAnchor x = true <;> by_cases h2 : isTopicAnchor x.2 = true <;>
      simp [h1, h2, ih, List.filterMap_cons, Function.comp]

/-! ## The events of one run -/

theorem fetchNPRHeadlines_events (w : World) :
    (fetchNPRHeadlines w).1 = [Event.httpGet (goStr "https://text.npr.org")] := by
  unfold fetchNPRHeadlines
  dsimp only
  split
  · rfl
  · split
    · rfl
    · split <;> rfl

theorem generateImage_events (w : World) (prompt : GoString) :
    ∀ e ∈ (generateImage w prompt).1,
      (∃ t, e = Event.print t) ∨
        ((e = Event.newRequest (imageRequest w prompt (w.getenv (goStr "OPENAI_API_KEY"))) ∨
          e = Event.clientDo (imageRequest w prompt (w.getenv (goStr "OPENAI_API_KEY")))) ∧
          w.getenv (goStr "OPENAI_API_KEY") ≠ []) := by
  intro e he
  unfold generateImage at he
  by_cases hk : w.getenv (goStr "OPENAI_API_KEY") = []
  · simp [hk] at he
    exact Or.inl ⟨_, he⟩
  · simp only [hk, if_false] at he
    cases hd : w.clientDo (imageRequest w prompt (w.getenv (goStr "OPENAI_API_KEY"))) with
    | error err =>
      simp [hd] at he
      rcases he with he | he | he
      · exact Or.inl ⟨_, he⟩
      · exact Or.inr ⟨Or.inl he, hk⟩
      · exact Or.inr ⟨Or.inr he, hk⟩
    | ok resp =>
      cases hb : resp.body with
      | error err =>
        simp [hd, hb] at he
        rcases he with he | he | he
        · exact Or.inl ⟨_, he⟩
        · exact Or.inr ⟨Or.inl he, hk⟩
        · exact Or.inr ⟨Or.inr he, hk⟩
      | ok bodyBytes =>
        cases hu : w.jsonUnmarshal bodyBytes with
        | error err =>
          simp [hd, hb, hu] at he
          rcases he with he | he | he | he
          · exact Or.inl ⟨_, he⟩
          · exact Or.inr ⟨Or.inl he, hk⟩
          · exact Or.inr ⟨Or.inr he, hk⟩
          · exact Or.inl ⟨_, he⟩
        | ok result =>
          cases hdata : result.Data with
          | nil =>
            simp [hd, hb, hu, hdata] at he
            rcases he with he | he | he | he
            · exact Or.inl ⟨_, he⟩
            · exact Or.inr ⟨Or.inl he, hk⟩
            · exact Or.inr ⟨Or.inr he, hk⟩
            · exact Or.inl ⟨_, he⟩
          | cons first rest =>
            simp [hd, hb, hu, hdata] at he
            rcases he with he | he | he
            · exact Or.inl ⟨_, he⟩
            · exact Or.inr ⟨Or.inl he, hk⟩
            · exact Or.inr ⟨Or.inr he, hk⟩

theorem downloadImage_events (w : World) (url filepath : GoString) :
    ∀ e ∈ (downloadImage w url filepath).1,
      e = Event.httpGet url ∨ e = Event.osCreate filepath ∨ e = Event.ioCopy filepath := by
  intro e he
  unfold downloadImage at he
  cases hg : w.httpGet url with
  | error err => simp [hg] at he; exact Or.inl he
  | ok resp =>
    cases hc : w.osCreate filepath with
    | some err => simp [hg, hc] at he; tauto
    | none => simp [hg, hc] at he; tauto

/-- The run of `main` calls `generateImage` with `p` exactly when the fetch
succeeded, some headline survived the filter, the output directory could be
created, and `p` is the combined prompt of the surviving headlines. -/
theorem mem_main_callGenerateImage (w : World) (p : GoString) :
    Event.callGenerateImage p ∈ main w ↔
      ∃ H, (fetchNPRHeadlines w).2 = .ok H ∧ filterHeadlines w.caseTable H ≠ [] ∧
        w.mkdirAll (goStr "generated_images") = none ∧
        p = combinedPrompt (filterHeadlines w.caseTable H) := by
  have hf := fetchNPRHeadlines_events w
  unfold main
  split
  · rename_i fetched err hfr
    rw [hfr] at hf
    simp only at hf
    subst hf
    simp [hfr]
  · rename_i fetched H hfr
    rw [hfr] at hf
    simp only at hf
    subst hf
    simp only [hfr, filterHeadlines, List.length_eq_zero]
    by_cases hF : (filterHeadlinesOut w.caseTable H).1 = []
    · simp [hF]
    · simp only [hF, if_false]
      split
      · rename_i err hm
        simp [hm]
      · rename_i hm
        have hg := generateImage_events w (combinedPrompt (filterHeadlinesOut w.caseTable H).1)
        have hgen : Event.callGenerateImage p ∉
            (generateImage w (combinedPrompt (filterHeadlinesOut w.caseTable H).1)).1 := by
          intro hmem
          rcases hg _ hmem with ⟨t, ht⟩ | ⟨h1 | h1, _⟩ <;> cases ‹_ = _›
        split
        · rename_i gen err hgr
          rw [hgr] at hgen
          simp [hgen, hm, hF, eq_comm]
        · rename_i gen imageURL hgr
          rw [hgr] at hgen
          have hd := downloadImage_events w imageURL
            (goStr "generated_images/combined_news.png")
          have hdl : Event.callGenerateImage p ∉
              (downloadImage w imageURL (goStr "generated_images/combined_news.png")).1 := by
            intro hmem
            rcases hd _ hmem with h1 | h1 | h1 <;> cases h1
          split
          · rename_i dl err hdr
            rw [hdr] at hdl
            simp [hgen, hdl, hm, hF, eq_comm]
          · rename_i dl hdr
            rw [hdr] at hdl
            simp [hgen, hdl, hm, hF, eq_comm]

set_option maxRecDepth 100000 in
theorem combinedPrompt_scenario :
    combinedPrompt [goStr "Local Team Wins Championship", goStr "Heavy Rain Expected Tomorrow"]
      = goStr ("Create an artistic interpretation of today's news combining these headlines: "
          ++ "Local Team Wins Championship. Heavy Rain Expected Tomorrow") := by
  decide

/-- A headline that holds a blocked word in some letter case does not pass. -/
theorem passes_eq_false_of_any_case (caseTable : Nat → Nat) (h w u : GoString)
    (hw : w ∈ blockedWords) (hu : u <:+: h) (hcase : u.map asciiLowerByte = w) :
    passes caseTable h = false := by
  have hascii : ∀ c ∈ u, c < 0x80 := by
    intro c hc
    apply asciiLowerByte_lt
    apply blockedWords_ascii w hw
    rw [← hcase]
    exact List.mem_map_of_mem _ hc
  have hinf := map_asciiLowerByte_infix_stringsToLower caseTable u h hascii hu
  rw [hcase] at hinf
  cases hp : passes caseTable h with
  | false => rfl
  | true => exact absurd hinf ((passes_iff caseTable h).1 hp w hw)

theorem fetchNPRHeadlines_eq (w : World) (H : List GoString)
    (h : (fetchNPRHeadlines w).2 = .ok H) :
    fetchNPRHeadlines w = ([Event.httpGet (goStr "https://text.npr.org")], .ok H) :=
  Prod.ext (fetchNPRHeadlines_events w) h

set_option maxRecDepth 100000 in
theorem scenario_blocked_output :
    Event.httpGet (goStr "https://text.npr.org") ::
      ((filterHeadlinesOut
          (scenarioWorld (headlinePage [goStr "Shooting Reported Downtown"]) (goStr "key") []
            (.error [])).caseTable [goStr "Shooting Reported Downtown"]).2.map Event.print ++
        [Event.print (goStr "No headlines remaining after filtering\n")]) =
      [Event.httpGet (goStr "https://text.npr.org"),
       Event.print (goStr
         "Filtering out headline containing 'shooting': Shooting Reported Downtown\n"),
       Event.print (goStr "No headlines remaining after filtering\n")] := by
  decide

set_option maxRecDepth 100000 in
theorem scenario_two_headlines_call :
    Event.callGenerateImage (goStr
        ("Create an artistic interpretation of today's news combining these headlines: "
          ++ "Local Team Wins Championship. Heavy Rain Expected Tomorrow")) ∈
      main (scenarioWorld
        (headlinePage [goStr "Local Team Wins Championship",
          goStr "Heavy Rain Expected Tomorrow"])
        (goStr "key") [] (.error [])) := by
  decide

/-! ## The properties of the specification -/

/-- C1: for every list of headlines `H`, `filterHeadlines H` is the sub-sequence
of `H` (same order, same multiplicities, that is `List.filter`) of the
headlines whose `strings.ToLower` form contains none of the seven blocked words
as a substring. -/
theorem filterHeadlines_spec (caseTable : Nat → Nat) (H : List GoString) :
    filterHeadlines caseTable H =
      H.filter (fun h => decide (∀ w ∈ [goStr "gunshot", goStr "shooting", goStr "shot",
        goStr "killed", goStr "murder", goStr "bombs", goStr "deadly"],
          ¬ w <:+: stringsToLower caseTable h)) := by
  rw [filterHeadlines_eq_filter]
  congr
  funext h
  rw [Bool.eq_iff_iff, passes_iff, decide_eq_true_iff]
  rfl

/-- C3: `filterHeadlines` is idempotent: filtering an already filtered list
returns it unchanged. -/
theorem filterHeadlines_idempotent (caseTable : Nat → Nat) (H : List GoString) :
    filterHeadlines caseTable (filterHeadlines caseTable H) = filterHeadlines caseTable H := by
  simp [filterHeadlines_eq_filter, List.filter_filter]

/-- C4: for every headline sequence `F` (in particular every non-empty filtered
one) the prompt `main` builds has length at most 1000; and when the untruncated
prompt (or already the joined headlines alone) is longer than 1000, the prompt
has length exactly 1000 and its last three bytes are `...`. -/
theorem combinedPrompt_length (F : List GoString) :
    (combinedPrompt F).length ≤ 1000 ∧
    (1000 < (naivePrompt F).length ∨ 1000 < (stringsJoin F (goStr ". ")).length →
      (combinedPrompt F).length = 1000 ∧
      (combinedPrompt F).drop ((combinedPrompt F).length - 3) = goStr "...") := by
  have h3 : (goStr "...").length = 3 := by decide
  constructor
  · unfold combinedPrompt
    split
    · rw [List.length_append, List.length_take, h3]; omega
    · omega
  · intro h
    have hn : 1000 < (naivePrompt F).length := by
      rcases h with h | h
      · exact h
      · unfold naivePrompt; rw [List.length_append]; omega
    unfold combinedPrompt
    rw [if_pos hn]
    have hl : ((naivePrompt F).take 997 ++ goStr "...").length = 1000 := by
      rw [List.length_append, List.length_take, h3]; omega
    refine ⟨hl, ?_⟩
    rw [hl]
    have ht : ((naivePrompt F).take 997).length = 997 := by
      rw [List.length_take]; omega
    rw [List.drop_append_of_le_length (by omega)]
    simp [List.drop_eq_nil_of_le, ht]

/-- Witness of C4: one headline of 1000 letters `a` makes the untruncated prompt
longer than 1000, and the prompt then has length 1000 and ends in `...`. -/
theorem combinedPrompt_length_witness :
    1000 < (naivePrompt [List.replicate 1000 0x61]).length ∧
    (combinedPrompt [List.replicate 1000 0x61]).length = 1000 ∧
    (combinedPrompt [List.replicate 1000 0x61]).drop
      ((combinedPrompt [List.replicate 1000 0x61]).length - 3) = goStr "..." :=
  have h : 1000 < (naivePrompt [List.replicate 1000 0x61]).length := by
    rw [naivePrompt, stringsJoin, List.length_append, List.length_replicate]
    exact Nat.lt_add_of_pos_left (by decide)
  ⟨h, (combinedPrompt_length [List.replicate 1000 0x61]).2 (Or.inl h)⟩

/-- C5: with `naive` the instruction phrase followed by the headlines joined with
`. `, the prompt is `naive` when `len(naive) <= 1000` and otherwise the first 997
bytes of `naive` followed by `...`; this is the prompt `main` passes to
`generateImage`, for `F` the filtered fetched headlines; and for the two
headlines of the scenario the prompt is the expected sentence. -/
theorem combinedPrompt_spec :
    (∀ F : List GoString,
      let naive := goStr
        "Create an artistic interpretation of today's news combining these headlines: " ++
          stringsJoin F (goStr ". ")
      (naive.length ≤ 1000 → combinedPrompt F = naive) ∧
      (1000 < naive.length → combinedPrompt F = naive.take 997 ++ goStr "...")) ∧
    (∀ (w : World) (p : GoString), Event.callGenerateImage p ∈ main w →
      ∃ H, (fetchNPRHeadlines w).2 = .ok H ∧
        p = combinedPrompt (filterHeadlines w.caseTable H)) ∧
    combinedPrompt [goStr "Local Team Wins Championship", goStr "Heavy Rain Expected Tomorrow"]
      = goStr ("Create an artistic interpretation of today's news combining these headlines: "
          ++ "Local Team Wins Championship. Heavy Rain Expected Tomorrow") := by
  refine ⟨?_, ?_, ?_⟩
  · intro F
    refine ⟨?_, ?_⟩
    · intro h
      unfold combinedPrompt naivePrompt instruction
      rw [if_neg (by omega)]
    · intro h
      unfold combinedPrompt naivePrompt instruction
      rw [if_pos h]
  · intro w p hp
    obtain ⟨H, h1, _, _, h4⟩ := (mem_main_callGenerateImage w p).1 hp
    exact ⟨H, h1, h4⟩
  · exact combinedPrompt_scenario

/-- Witness of C5: one headline of 1000 letters `a` makes the untruncated prompt
longer than 1000 bytes, and the prompt is its first 997 bytes followed by
`...`. -/
theorem combinedPrompt_spec_witness :
    combinedPrompt [List.replicate 1000 0x61] =
      (goStr "Create an artistic interpretation of today's news combining these headlines: " ++
        stringsJoin [List.replicate 1000 0x61] (goStr ". ")).take 997 ++ goStr "..." :=
  (combinedPrompt_spec.1 [List.replicate 1000 0x61]).2 (by
    rw [stringsJoin, List.length_append, List.length_replicate]
    exact Nat.lt_add_of_pos_left (by decide))

/-- C2: if a headline `h` contains a substring `u` that is a blocked word `w`
written in any letter case (lowercasing each byte of `u` gives `w`), also inside
a longer word, then `h` occurs in no result of `filterHeadlines`. -/
theorem filterHeadlines_excludes_any_case (caseTable : Nat → Nat) (h w u : GoString)
    (hw : w ∈ blockedWords) (hu : u <:+: h) (hcase : u.map asciiLowerByte = w)
    (H : List GoString) : h ∉ filterHeadlines caseTable H := by
  rw [filterHeadlines_eq_filter, List.mem_filter]
  rintro ⟨_, hp⟩
  rw [passes_eq_false_of_any_case caseTable h w u hw hu hcase] at hp
  cases hp

/-- Witness of C2: `SCREENSHOT` holds `SHOT`, an uppercase `shot`, inside a
longer word, and is filtered out. -/
theorem filterHeadlines_excludes_any_case_witness :
    goStr "shot" ∈ blockedWords ∧ goStr "SHOT" <:+: goStr "SCREENSHOT" ∧
    (goStr "SHOT").map asciiLowerByte = goStr "shot" ∧
    goStr "SCREENSHOT" ∉
      filterHeadlines (fun r => r) [goStr "SCREENSHOT", goStr "Heavy Rain Expected Tomorrow"] :=
  have h1 : goStr "shot" ∈ blockedWords := by decide
  have h2 : goStr "SHOT" <:+: goStr "SCREENSHOT" := ⟨goStr "SCREEN", [], by decide⟩
  have h3 : (goStr "SHOT").map asciiLowerByte = goStr "shot" := by decide
  ⟨h1, h2, h3, filterHeadlines_excludes_any_case (fun r => r) (goStr "SCREENSHOT")
    (goStr "shot") (goStr "SHOT") h1 h2 h3 _⟩

/-- C7: when every fetched headline holds a blocked word (in its lowercased form,
or written in some letter case), the empty list included, the run of `main` is
the page request, the filter diagnostics and the line
`No headlines remaining after filtering`, and nothing else: `generateImage` and
`downloadImage` are not called, no request is built or sent, no directory or
file is created or written. -/
theorem main_all_blocked (w : World) (H : List GoString)
    (hfetch : (fetchNPRHeadlines w).2 = .ok H)
    (hall : ∀ h ∈ H, ∃ wd ∈ blockedWords,
      wd <:+: stringsToLower w.caseTable h ∨ ∃ u, u <:+: h ∧ u.map asciiLowerByte = wd) :
    main w = Event.httpGet (goStr "https://text.npr.org") ::
      ((filterHeadlinesOut w.caseTable H).2.map Event.print ++
        [Event.print (goStr "No headlines remaining after filtering\n")]) ∧
    ∀ e ∈ main w, (∀ p, e ≠ Event.callGenerateImage p) ∧
      (∀ u f, e ≠ Event.callDownloadImage u f) ∧ (∀ r, e ≠ Event.newRequest r) ∧
      (∀ r, e ≠ Event.clientDo r) ∧ (∀ d, e ≠ Event.mkdirAll d) ∧
      (∀ f, e ≠ Event.osCreate f) ∧ (∀ f, e ≠ Event.ioCopy f) := by
  have hempty : (filterHeadlinesOut w.caseTable H).1 = [] := by
    have := filterHeadlines_eq_filter w.caseTable H
    rw [filterHeadlines] at this
    rw [this, List.filter_eq_nil_iff]
    intro h hh
    obtain ⟨wd, hwd, hc⟩ := hall h hh
    rcases hc with hc | ⟨u, hu, hcase⟩
    · intro hp
      exact (passes_iff w.caseTable h).1 hp wd hwd hc
    · rw [passes_eq_false_of_any_case w.caseTable h wd u hwd hu hcase]
      simp
  have hmain : main w = Event.httpGet (goStr "https://text.npr.org") ::
      ((filterHeadlinesOut w.caseTable H).2.map Event.print ++
        [Event.print (goStr "No headlines remaining after filtering\n")]) := by
    unfold main
    rw [fetchNPRHeadlines_eq w H hfetch]
    simp [hempty]
  refine ⟨hmain, ?_⟩
  intro e he
  rw [hmain] at he
  simp only [List.mem_cons, List.mem_append, List.mem_map, List.mem_singleton,
    List.not_mem_nil, or_false] at he
  rcases he with rfl | ⟨t, _, rfl⟩ | rfl <;> simp

/-- Witness of C7: the page whose only headline is `Shooting Reported Downtown`
runs to the diagnostic for `shooting` and the abort line. -/
theorem main_all_blocked_witness :
    main (scenarioWorld (headlinePage [goStr "Shooting Reported Downtown"])
        (goStr "key") [] (.error [])) =
      [Event.httpGet (goStr "https://text.npr.org"),
       Event.print (goStr
         "Filtering out headline containing 'shooting': Shooting Reported Downtown\n"),
       Event.print (goStr "No headlines remaining after filtering\n")] :=
  (main_all_blocked
    (scenarioWorld (headlinePage [goStr "Shooting Reported Downtown"]) (goStr "key") []
      (.error []))
    [goStr "Shooting Reported Downtown"] rfl
    (by
      intro h hh
      rw [List.mem_singleton] at hh
      subst hh
      exact ⟨goStr "shooting", by decide, Or.inr ⟨goStr "Shooting", ⟨[], goStr " Reported Downtown",
        by decide⟩, by decide⟩⟩)).1.trans scenario_blocked_output

/-- C6: when `main` reaches the call `generateImage(p)`, the lowercased prompt
`p` contains no blocked word: not inside a headline, not inside the instruction
phrase, not across a `. ` join, not at the truncation point.  The case table of
package `unicode` is taken to leave U+FFFD unchanged, as Go's table does. -/
theorem main_prompt_has_no_blocked_word (w : World)
    (hct : w.caseTable RuneError = RuneError) (p : GoString)
    (hp : Event.callGenerateImage p ∈ main w) :
    ∀ wd ∈ blockedWords, ¬ wd <:+: stringsToLower w.caseTable p := by
  intro wd hwd
  obtain ⟨H, _, _, _, rfl⟩ := (mem_main_callGenerateImage w p).1 hp
  apply not_infix_stringsToLower_combinedPrompt w.caseTable hct wd hwd
  intro h hh
  rw [filterHeadlines_eq_filter, List.mem_filter] at hh
  exact hh.2

/-- Witness of C6: the run on the page with the two headlines of the first
scenario calls `generateImage`, and the lowercased prompt holds no blocked
word. -/
theorem main_prompt_has_no_blocked_word_witness :
    Event.callGenerateImage (goStr
        ("Create an artistic interpretation of today's news combining these headlines: "
          ++ "Local Team Wins Championship. Heavy Rain Expected Tomorrow")) ∈
      main (scenarioWorld
        (headlinePage [goStr "Local Team Wins Championship",
          goStr "Heavy Rain Expected Tomorrow"])
        (goStr "key") [] (.error [])) ∧
    ∀ wd ∈ blockedWords, ¬ wd <:+: stringsToLower (fun r => r) (goStr
        ("Create an artistic interpretation of today's news combining these headlines: "
          ++ "Local Team Wins Championship. Heavy Rain Expected Tomorrow")) :=
  ⟨scenario_two_headlines_call,
    main_prompt_has_no_blocked_word
      (scenarioWorld
        (headlinePage [goStr "Local Team Wins Championship",
          goStr "Heavy Rain Expected Tomorrow"])
        (goStr "key") [] (.error []))
      rfl _ scenario_two_headlines_call⟩

/-- C8: the walk of `crawler` visits, in document (pre-)order, exactly the nodes
of the tree that are nested inside no topic anchor (an `a` element with a class
attribute equal to `topic-title`): it does not descend into a matched anchor and
reaches every node, so every topic anchor, outside of one; and the headlines it
returns are taken, in that order, from the topic anchors it visits. -/
theorem crawler_document_order (doc : Node) :
    crawlerVisits doc = ((documentOrder [] doc).filter notInsideAnchor).map Prod.snd ∧
    crawler doc [] = (crawlerVisits doc).filterMap
      (fun m => if isTopicAnchor m = true then firstChildData m else none) :=
  ⟨crawlerVisits_eq [] doc rfl, crawler_eq_visits doc⟩

/-- C10, as stated, fails: on the page whose only topic anchor has no child the
walk reaches the anchor and returns no headline, while one topic anchor is
nested inside no other. -/
theorem crawler_count_counterexample :
    ¬ ((crawler emptyAnchorPage []).length =
      ((documentOrder [] emptyAnchorPage).filter isOuterAnchor).length) := by
  decide

/-- C10, amended: every topic anchor the walk reaches that has a child appends
the data of its first child, so the headlines returned are those data, in
document order, and their number is the number of topic anchors that are nested
inside no other topic anchor and have at least one child. -/
theorem crawler_headline_count (doc : Node) :
    crawler doc [] =
      ((documentOrder [] doc).filter
        (fun x => isOuterAnchor x && !x.2.children.isEmpty)).map
        (fun x => (firstChildData x.2).getD []) ∧
    (crawler doc []).length =
      ((documentOrder [] doc).filter
        (fun x => isOuterAnchor x && !x.2.children.isEmpty)).length := by
  have h : crawler doc [] =
      ((documentOrder [] doc).filter
        (fun x => isOuterAnchor x && !x.2.children.isEmpty)).map
        (fun x => (firstChildData x.2).getD []) := by
    rw [crawler_eq_outerAnchors]
    generalize documentOrder [] doc = l
    induction l with
    | nil => rfl
    | cons x l ih =>
      simp only [List.filter_cons]
      by_cases h1 : isOuterAnchor x = true
      · rcases hx : x.2.children with _ | ⟨c, cs⟩
        · have hf : firstChildData x.2 = none := by simp [firstChildData, hx]
          simp [h1, hx, hf, ih]
        · have hf : firstChildData x.2 = some c.Data := by simp [firstChildData, hx]
          simp [h1, hx, hf, ih]
      · simp [h1, ih]
  exact ⟨h, by rw [h, List.length_map]⟩

/-- C9: `generateImage` returns a URL without error exactly when the credential
is non-empty, the POST succeeds, the body is read, the body decodes and the
decoded data sequence is non-empty, and the URL is then the first of the
sequence; with an empty credential it returns the configuration error having
only printed its log line, no request built or sent; and a reply
`{"created":1,"data":[]}` yields the error `no image URL in response`. -/
theorem generateImage_spec (w : World) (prompt : GoString) :
    (∀ url, (generateImage w prompt).2 = .ok url ↔
      w.getenv (goStr "OPENAI_API_KEY") ≠ [] ∧
      ∃ resp bodyBytes result first rest,
        w.clientDo (imageRequest w prompt (w.getenv (goStr "OPENAI_API_KEY"))) = .ok resp ∧
        resp.body = .ok bodyBytes ∧ w.jsonUnmarshal bodyBytes = .ok result ∧
        result.Data = first :: rest ∧ url = first.URL) ∧
    (w.getenv (goStr "OPENAI_API_KEY") = [] →
      generateImage w prompt =
        ([Event.print (goStr "\nSending prompt to OpenAI:\n" ++ prompt ++ goStr "\n\n")],
          .error (goStr "OPENAI_API_KEY environment variable not set"))) ∧
    (∀ resp, w.getenv (goStr "OPENAI_API_KEY") ≠ [] →
      w.clientDo (imageRequest w prompt (w.getenv (goStr "OPENAI_API_KEY"))) = .ok resp →
      resp.body = .ok (goStr "\x7b\"created\":1,\"data\":[]\x7d") →
      w.jsonUnmarshal (goStr "\x7b\"created\":1,\"data\":[]\x7d") = .ok ⟨1, []⟩ →
      (generateImage w prompt).2 = .error (goStr "no image URL in response")) := by
  refine ⟨?_, ?_, ?_⟩
  · intro url
    unfold generateImage
    by_cases hk : w.getenv (goStr "OPENAI_API_KEY") = []
    · simp [hk]
    · simp only [hk, if_false, ne_eq, not_false_eq_true, true_and]
      cases hd : w.clientDo (imageRequest w prompt (w.getenv (goStr "OPENAI_API_KEY"))) with
      | error err => simp
      | ok resp =>
        cases hb : resp.body with
        | error err => simp [hb]
        | ok bodyBytes =>
          cases hu : w.jsonUnmarshal bodyBytes with
          | error err => simp [hb, hu]
          | ok result =>
            cases hdata : result.Data with
            | nil => simp [hb, hu, hdata]
            | cons first rest =>
              simp [hb, hu, hdata, eq_comm]
  · intro hk
    unfold generateImage
    simp [hk]
  · intro resp hk hd hb hu
    unfold generateImage
    simp [hk, hd, hb, hu]

/-- Witness of C9: with a key set and the reply `{"created":1,"data":[]}`,
`generateImage` returns the error `no image URL in response`. -/
theorem generateImage_spec_witness :
    (generateImage
      (scenarioWorld (headlinePage []) (goStr "key")
        (goStr "\x7b\"created\":1,\"data\":[]\x7d") (.ok ⟨1, []⟩))
      (goStr "a prompt")).2 = .error (goStr "no image URL in response") :=
  (generateImage_spec
    (scenarioWorld (headlinePage []) (goStr "key")
      (goStr "\x7b\"created\":1,\"data\":[]\x7d") (.ok ⟨1, []⟩))
    (goStr "a prompt")).2.2 ⟨.ok (goStr "\x7b\"created\":1,\"data\":[]\x7d")⟩
      (by decide) rfl rfl rfl

end Daily
